import Mathlib

/-!
Shallow embedding of `source/common/ssl/connection_impl.cc` (the TLS
connection state machine of the proxy's encrypted-transport layer).

The TLS engine (OpenSSL in the source) is external: it is modelled as a
scripted oracle.  Each call the state machine makes into the engine
(`SSL_do_handshake`, `SSL_read`, `SSL_write`) consumes the next scripted
outcome; an exhausted script models an engine that is blocked waiting for
the peer (`SSL_ERROR_WANT_READ` / `SSL_ERROR_WANT_WRITE`).  The byte
buffers (`Buffer::Instance` reserve/commit/drain) are likewise external
interfaces: the read buffer is modelled by the list of reserved-region
capacities the buffer hands out (`caps`) and the list of committed region
lengths; the write buffer by the list of its chain-slice lengths.
-/

namespace Ssl

/-- Classification of one `SSL_do_handshake` step: `rc == 1` is `success`;
otherwise `SSL_get_error` yields `SSL_ERROR_WANT_READ`,
`SSL_ERROR_WANT_WRITE`, or any other code (`fatal`, the `default` branch of
the switch in `doHandshake`). -/
inductive HsResult where
  | success
  | wantRead
  | wantWrite
  | fatal
deriving DecidableEq, Repr

/-- Classification of one `SSL_read` / `SSL_write` call: `rc > 0` is
`success rc` (the byte count); otherwise `SSL_get_error` yields
`SSL_ERROR_WANT_READ`, `SSL_ERROR_WANT_WRITE`, or any other code
(`fatal`). -/
inductive IoResult where
  | success (n : Nat)
  | wantRead
  | wantWrite
  | fatal
deriving DecidableEq, Repr

/-- Scripted outcomes are well formed when every `success` carries a
positive byte count, as `rc > 0` does in the source. -/
def ioWF (r : IoResult) : Bool :=
  match r with
  | IoResult.success n => decide (0 < n)
  | _ => true

/-- Network::ConnectionImpl::PostIoAction: the binary decision every I/O
step returns to the event loop. -/
inductive PostIoAction where
  | KeepOpen
  | Close
deriving DecidableEq, Repr

/-- Transport state as observed through `state()`: the source only ever
compares it against `State::Open`, so the model keeps the open versus
not-open distinction. -/
inductive ConnState where
  | Open
  | Closed
deriving DecidableEq, Repr

/-- Connection events raised to upstream filters.  The only event this
translation unit raises itself is `Connected` (line 94 of the source). -/
inductive ConnEvent where
  | Connected
deriving DecidableEq, Repr

/-- The scripted TLS engine bound to one connection: outcome scripts for
the three engine entry points, the peer-verification verdict
(`ContextImpl::verifyPeer`), the `ERR_get_error` queue, the peer leaf
certificate in DER (if one was presented), and the `SSL_shutdown` return
code. -/
structure Engine where
  hsScript : List HsResult
  readScript : List IoResult
  writeScript : List IoResult
  verify : Bool
  errors : List Nat
  peerCert : Option (List Nat)
  shutdownRc : Int
deriving DecidableEq, Repr

/-- One SSL connection: the `handshake_complete_` flag, the transport
state, the reserved-region capacities the read buffer hands out on each
`reserve(16384, slices, 2)` call, the lengths of the regions committed to
the read buffer so far, the write buffer's chain-slice lengths, the log of
raised events (paired with the value of `handshake_complete_` at the
moment the event fired), the log of error codes drained from the engine's
error queue, whether the upstream `Connected` callback synchronously
closes the connection, and the engine itself. -/
structure Conn where
  handshake_complete : Bool
  connState : ConnState
  caps : List Nat
  readCommitted : List Nat
  writeBuf : List Nat
  events : List (ConnEvent × Bool)
  drainLog : List Nat
  closeOnConnected : Bool
  engine : Engine
deriving DecidableEq, Repr

/-- One `SSL_do_handshake` call against the scripted engine: consumes the
head of `hsScript`.  An exhausted script models an engine blocked waiting
for peer data (`SSL_ERROR_WANT_READ`). -/
def stepHandshakeEngine (e : Engine) : HsResult × Engine :=
  match e.hsScript with
  | [] => (HsResult.wantRead, e)
  | r :: rest => (r, { e with hsScript := rest })

/-- The `while (uint64_t err = ERR_get_error())` loop of
`drainErrorQueue`: pops and logs entries while `ERR_get_error` returns a
nonzero code.  Returns (logged entries, remaining queue); `ERR_get_error`
returns `0` exactly when the queue is empty, so a `0` entry (which cannot
occur in reality) stops the loop. -/
def drainLoop : List Nat → List Nat × List Nat
  | [] => ([], [])
  | e :: rest =>
    if e = 0 then ([], e :: rest)
    else
      let p := drainLoop rest
      (e :: p.1, p.2)

/-- ConnectionImpl::drainErrorQueue: drains the engine's error queue,
logging each entry at debug verbosity (the log is modelled by
`drainLog`). -/
def drainErrorQueue (c : Conn) : Conn :=
  let p := drainLoop c.engine.errors
  { c with drainLog := c.drainLog ++ p.1, engine := { c.engine with errors := p.2 } }

/-- Network::ConnectionImpl::raiseEvents as seen from this translation
unit: appends the event to the upstream-visible log (recording the value
of `handshake_complete_` at the moment it fires) and, if the upstream
callback reacts by synchronously closing the connection
(`closeOnConnected`), moves the transport state off `Open`. -/
def raiseEvents (c : Conn) (ev : ConnEvent) : Conn :=
  let c1 := { c with events := c.events ++ [(ev, c.handshake_complete)] }
  if c1.closeOnConnected then { c1 with connState := ConnState.Closed } else c1

/-- ConnectionImpl::doHandshake (lines 83–110): one engine handshake step.
On `rc == 1`: verify the peer; on verification failure return `Close`
(without touching the flag or raising an event); otherwise set
`handshake_complete_`, raise `Connected`, and return `KeepOpen` only if
`state()` is still `Open` after the callback ran.  `WANT_READ` and
`WANT_WRITE` return `KeepOpen`; any other error drains the error queue and
returns `Close`. -/
def doHandshake (c : Conn) : Conn × PostIoAction :=
  let p := stepHandshakeEngine c.engine
  let c1 := { c with engine := p.2 }
  match p.1 with
  | HsResult.success =>
    if c1.engine.verify then
      let c2 := { c1 with handshake_complete := true }
      let c3 := raiseEvents c2 ConnEvent.Connected
      (c3, if c3.connState = ConnState.Open then PostIoAction.KeepOpen else PostIoAction.Close)
    else
      (c1, PostIoAction.Close)
  | HsResult.wantRead => (c1, PostIoAction.KeepOpen)
  | HsResult.wantWrite => (c1, PostIoAction.KeepOpen)
  | HsResult.fatal => (drainErrorQueue c1, PostIoAction.Close)

/-- Inner `for (i = 0; i < num_slices; i++)` loop of
`doReadFromSocket` (lines 51–73): one `SSL_read` per reserved region,
consuming the engine's read script.  A region receiving `rc > 0` bytes is
shrunk to length `rc` and marked for commit and the loop moves to the next
region; `WANT_READ` stops the loop non-fatally; `WANT_WRITE` (renegotiation,
deliberately unhandled) falls through to the `default` branch, which is
fatal.  Returns (region lengths to commit, remaining script,
`none` if every region was filled so `keep_reading` stays true, otherwise
`some fatal?`). -/
def readRegions : List Nat → List IoResult → List Nat × List IoResult × Option Bool
  | [], script => ([], script, none)
  | _ :: _, [] => ([], [], some false)
  | _ :: caps, IoResult.success n :: rest =>
    let p := readRegions caps rest
    (n :: p.1, p.2.1, p.2.2)
  | _ :: _, IoResult.wantRead :: rest => ([], rest, some false)
  | _ :: _, IoResult.wantWrite :: rest => ([], rest, some true)
  | _ :: _, IoResult.fatal :: rest => ([], rest, some true)

/-- Outer `while (keep_reading)` loop of `doReadFromSocket` (lines 45–78):
each iteration reserves regions of capacities `caps` and runs the inner
loop; regions that received bytes are committed after each iteration.  The
fuel argument is only a termination device: one unit per iteration, and
each iteration that keeps reading consumes at least one scripted outcome,
so `script.length + 1` units always suffice (the fuel-exhausted and
`caps = []` branches are unreachable under the source's invariant that
`reserve(16384, slices, 2)` yields at least one region).  Returns
(committed region lengths in order, remaining script, fatal?). -/
def readOuter (caps : List Nat) : Nat → List IoResult → List Nat × List IoResult × Bool
  | 0, script => ([], script, false)
  | Nat.succ fuel, script =>
    match readRegions caps script with
    | (lens, rem, some fatal) => (lens, rem, fatal)
    | (lens, rem, none) =>
      let q := readOuter caps fuel rem
      (lens ++ q.1, q.2.1, q.2.2)

/-- The post-handshake body of `doReadFromSocket` (lines 43–80): run the
read loop, record the remaining script, drain the error queue when a fatal
outcome was classified, commit the regions that received bytes, and return
`Close` exactly when a fatal outcome was observed. -/
def readLoop (c : Conn) : Conn × PostIoAction :=
  let t := readOuter c.caps (c.engine.readScript.length + 1) c.engine.readScript
  let c1 := { c with engine := { c.engine with readScript := t.2.1 } }
  if t.2.2 then
    let c2 := drainErrorQueue c1
    ({ c2 with readCommitted := c2.readCommitted ++ t.1 }, PostIoAction.Close)
  else
    ({ c1 with readCommitted := c1.readCommitted ++ t.1 }, PostIoAction.KeepOpen)

/-- ConnectionImpl::doReadFromSocket (lines 35–81): while the handshake is
incomplete, delegate to `doHandshake`; if that returns `Close` or leaves
the handshake incomplete, return its action unchanged; otherwise fall into
the read loop. -/
def doReadFromSocket (c : Conn) : Conn × PostIoAction :=
  if c.handshake_complete = false then
    let p := doHandshake c
    if p.2 = PostIoAction.Close ∨ p.1.handshake_complete = false then p
    else readLoop p.1
  else readLoop c

/-- The `for (i = 0; i < num_slices; i++)` loop of `doWriteToSocket`
(lines 137–162): one `SSL_write` per write-buffer slice, consuming the
engine's write script.  `rc > 0` adds to `bytes_written` and continues;
`WANT_WRITE` breaks out non-fatally; `WANT_READ` (renegotiation) falls
through to the `default` branch, which drains errors and returns `Close`
immediately.  Returns (`bytes_written`, remaining script, fatal?). -/
def writeSlices : List Nat → List IoResult → Nat × List IoResult × Bool
  | [], script => (0, script, false)
  | _ :: _, [] => (0, [], false)
  | _ :: slices, IoResult.success n :: rest =>
    let p := writeSlices slices rest
    (n + p.1, p.2.1, p.2.2)
  | _ :: _, IoResult.wantWrite :: rest => (0, rest, false)
  | _ :: _, IoResult.wantRead :: rest => (0, rest, true)
  | _ :: _, IoResult.fatal :: rest => (0, rest, true)

/-- Buffer::Instance::drain applied to a chain of slice lengths: removes
`n` bytes from the front of the chain. -/
def drainBuf : List Nat → Nat → List Nat
  | [], _ => []
  | s :: rest, n =>
    if n = 0 then s :: rest
    else if n < s then (s - n) :: rest
    else drainBuf rest (n - s)

/-- The post-handshake body of `doWriteToSocket` (lines 128–168): an empty
write buffer returns `KeepOpen` with no engine call; otherwise run the
slice loop; on a fatal classification drain the error queue and return
`Close` at once (the early `return` on line 157 — `bytes_written` is not
drained from the buffer on this path); otherwise drain exactly
`bytes_written` from the front of the write buffer (guarded by
`bytes_written > 0`) and return `KeepOpen`. -/
def writeLoop (c : Conn) : Conn × PostIoAction :=
  if c.writeBuf.sum = 0 then (c, PostIoAction.KeepOpen)
  else
    let t := writeSlices c.writeBuf c.engine.writeScript
    let c1 := { c with engine := { c.engine with writeScript := t.2.1 } }
    if t.2.2 then (drainErrorQueue c1, PostIoAction.Close)
    else if 0 < t.1 then ({ c1 with writeBuf := drainBuf c1.writeBuf t.1 }, PostIoAction.KeepOpen)
    else (c1, PostIoAction.KeepOpen)

/-- ConnectionImpl::doWriteToSocket (lines 120–169): while the handshake
is incomplete, delegate to `doHandshake` with the same early-return rule
as `doReadFromSocket`; otherwise fall into the write loop. -/
def doWriteToSocket (c : Conn) : Conn × PostIoAction :=
  if c.handshake_complete = false then
    let p := doHandshake c
    if p.2 = PostIoAction.Close ∨ p.1.handshake_complete = false then p
    else writeLoop p.1
  else writeLoop c

/-- Socket-readiness events delivered by the dispatcher: these are the two
call sites of the state machine over a connection's life. -/
inductive IoEvent where
  | readReady
  | writeReady
deriving DecidableEq, Repr

/-- Dispatch one readiness event to the state machine. -/
def step (c : Conn) : IoEvent → Conn × PostIoAction
  | IoEvent.readReady => doReadFromSocket c
  | IoEvent.writeReady => doWriteToSocket c

/-- Run the connection over a sequence of readiness events, collecting the
returned actions. -/
def run (c : Conn) : List IoEvent → Conn × List PostIoAction
  | [] => (c, [])
  | ev :: evs =>
    let p := step c ev
    let q := run p.1 evs
    (q.1, p.2 :: q.2)

/-- Number of `Connected` events raised so far (the only event this
translation unit raises). -/
def countConnected (c : Conn) : Nat := c.events.length

/-- Observable steps of `closeSocket`, in execution order. -/
inductive CloseAction where
  | shutdownNotify (rc : Int)
  | drainErrors
  | transportClose
deriving DecidableEq, Repr

/-- ConnectionImpl::closeSocket (lines 198–210): if the handshake had
completed, attempt one best-effort `SSL_shutdown` (its return code is
logged and ignored), drain the error queue, then perform the base-class
transport close; otherwise perform the transport close alone.  Returns the
updated connection and the ordered list of actions taken. -/
def closeSocket (c : Conn) : Conn × List CloseAction :=
  if c.handshake_complete then
    let rc := c.engine.shutdownRc
    let c1 := drainErrorQueue c
    (c1, [CloseAction.shutdownNotify rc, CloseAction.drainErrors, CloseAction.transportClose])
  else
    (c, [CloseAction.transportClose])

/-- Modelled from the spec: `Hex::encode` (common/common/hex.h, outside
this repository slice) — lowercase hexadecimal digit for a value below
16. -/
def hexDigit (n : Nat) : Char :=
  if n < 10 then Char.ofNat (48 + n) else Char.ofNat (87 + n)

/-- Modelled from the spec: `Hex::encode` — two lowercase hex characters
per byte, in order. -/
def hexChars (bs : List Nat) : List Char :=
  (bs.map (fun b => [hexDigit (b / 16), hexDigit (b % 16)])).flatten

/-- Modelled from the spec: `X509_digest(cert, EVP_sha256(), ...)`
(OpenSSL, outside this repository) — a deterministic fixed-size digest of
the certificate's DER encoding, `SHA256_DIGEST_LENGTH = 32` bytes long.
Only determinism and the output length matter to the claims; the concrete
mixing function stands in for the real hash. -/
def x509Sha256 (der : List Nat) : List Nat :=
  (List.range 32).map (fun i => der.foldl (fun a b => (a * 131 + b) % 256) i)

/-- ConnectionImpl::sha256PeerCertificateDigest (lines 173–184): fetch the
peer's leaf certificate from the engine (`SSL_get_peer_certificate`);
return the empty string when none is present, otherwise the hex encoding
of the 32-byte SHA-256 digest of its DER encoding.  Nothing is cached: the
value is recomputed from the engine's current state on every call. -/
def sha256PeerCertificateDigest (c : Conn) : String :=
  match c.engine.peerCert with
  | none => ""
  | some der => String.mk (hexChars (x509Sha256 der))

/-! Specification helpers: the loops of `doReadFromSocket` and
`doWriteToSocket` consume a script up to its first non-success outcome;
these functions name the pieces of that decomposition so the theorems can
describe loop behavior without restating the loop. -/

/-- True exactly on `success` outcomes (`rc > 0` in the source). -/
def isSuccess : IoResult → Bool
  | IoResult.success _ => true
  | _ => false

/-- Byte count carried by an outcome (`0` for non-success outcomes). -/
def nBytes : IoResult → Nat
  | IoResult.success n => n
  | _ => 0

/-- Longest leading run of `success` outcomes in a script. -/
def successPart : List IoResult → List IoResult
  | [] => []
  | r :: rest => if isSuccess r then r :: successPart rest else []

/-- The script from its first non-success outcome on. -/
def blockedTail : List IoResult → List IoResult
  | [] => []
  | r :: rest => if isSuccess r then blockedTail rest else r :: rest

/-- The first non-success outcome of a script, if any: the outcome that
ends a read or write loop. -/
def termOutcome (s : List IoResult) : Option IoResult := (blockedTail s).head?

/-- Script entries strictly after the first non-success outcome: a single
loop never consumes these. -/
def afterTerm (s : List IoResult) : List IoResult := (blockedTail s).tail

/-- Loop-terminator classification of doReadFromSocket's switch:
`WANT_READ` ends the loop non-fatally, everything else (including
`WANT_WRITE`, the unsupported-renegotiation signal) falls through to the
`default` branch and is fatal. -/
def rFatalTerm : Option IoResult → Bool
  | some IoResult.wantRead => false
  | some (IoResult.success _) => false
  | none => false
  | _ => true

/-- Loop-terminator classification of doWriteToSocket's switch:
`WANT_WRITE` ends the loop non-fatally, everything else (including
`WANT_READ`, the unsupported-renegotiation signal) is fatal. -/
def wFatalTerm : Option IoResult → Bool
  | some IoResult.wantWrite => false
  | some (IoResult.success _) => false
  | none => false
  | _ => true

/-! Concrete engine scripts and connections used by the witnesses and
counterexamples below. -/

/-- An engine with every script empty, passing verification, an empty
error queue, no peer certificate, and a clean shutdown return code. -/
def idleEngine : Engine :=
  { hsScript := [], readScript := [], writeScript := [], verify := true, errors := [],
    peerCert := none, shutdownRc := 0 }

/-- A freshly accepted connection: handshake incomplete, transport open,
the read buffer reserving two 100-byte regions, empty buffers and logs,
and no upstream callback closing on `Connected`. -/
def baseConn : Conn :=
  { handshake_complete := false, connState := ConnState.Open, caps := [100, 100],
    readCommitted := [], writeBuf := [], events := [], drainLog := [],
    closeOnConnected := false, engine := idleEngine }

/-- Handshake step succeeds, verification passes. -/
def cHsOk : Conn :=
  { baseConn with engine := { idleEngine with hsScript := [HsResult.success] } }

/-- Handshake step succeeds, verification fails. -/
def cHsVerifyFail : Conn :=
  { baseConn with
    engine := { idleEngine with
      hsScript := [HsResult.success],
      verify := false } }

/-- Handshake engine outcomes all blocking. -/
def cHsBlocking : Conn :=
  { baseConn with
    engine := { idleEngine with
      hsScript := [HsResult.wantRead, HsResult.wantWrite, HsResult.wantRead] } }

/-- Post-handshake read with engine outcomes [5 bytes, WantRead]. -/
def cRead5WantRead : Conn :=
  { baseConn with
    handshake_complete := true,
    engine := { idleEngine with readScript := [IoResult.success 5, IoResult.wantRead] } }

/-- Post-handshake read with engine outcomes [5 bytes, Fatal] and a
pending error-queue entry. -/
def cRead5Fatal : Conn :=
  { baseConn with
    handshake_complete := true,
    engine := { idleEngine with
      readScript := [IoResult.success 5, IoResult.fatal],
      errors := [42] } }

/-- Post-handshake read where the first 100-byte region receives only 5
bytes and the engine still has 7 more bytes for the second region. -/
def cReadPartial : Conn :=
  { baseConn with
    handshake_complete := true,
    engine := { idleEngine with
      readScript := [IoResult.success 5, IoResult.success 7, IoResult.wantRead] } }

/-- Post-handshake write: 100-byte buffer (slices 40 and 60), engine
outcomes [40 bytes, Fatal], one pending error-queue entry. -/
def cWriteFatal : Conn :=
  { baseConn with
    handshake_complete := true,
    writeBuf := [40, 60],
    engine := { idleEngine with
      writeScript := [IoResult.success 40, IoResult.fatal],
      errors := [7] } }

/-- Post-handshake write: 100-byte buffer (slices 40 and 60), engine
outcomes [40 bytes, WantWrite]. -/
def cWrite40 : Conn :=
  { baseConn with
    handshake_complete := true,
    writeBuf := [40, 60],
    engine := { idleEngine with writeScript := [IoResult.success 40, IoResult.wantWrite] } }

/-- Post-handshake write: the remaining 60-byte buffer, engine outcome
[60 bytes]. -/
def cWrite60 : Conn :=
  { baseConn with
    handshake_complete := true,
    writeBuf := [60],
    engine := { idleEngine with writeScript := [IoResult.success 60] } }

/-- Post-handshake write with an empty write buffer. -/
def cWriteEmpty : Conn := { baseConn with handshake_complete := true }

/-- Completed handshake with a peer certificate presented. -/
def cCert : Conn :=
  { baseConn with
    handshake_complete := true,
    engine := { idleEngine with peerCert := some [1, 2, 3] } }

/-- Handshake step succeeds, verification fails, with a pending
error-queue entry. -/
def cVerifyFailErr : Conn :=
  { baseConn with
    engine := { idleEngine with
      hsScript := [HsResult.success],
      verify := false,
      errors := [42] } }

/-- Fatal handshake classification with a pending error-queue entry. -/
def cFatalHs : Conn :=
  { baseConn with
    engine := { idleEngine with hsScript := [HsResult.fatal], errors := [42] } }

/-- Completed handshake about to close, with pending error-queue
entries. -/
def cShut : Conn :=
  { baseConn with
    handshake_complete := true,
    engine := { idleEngine with errors := [3, 4] } }

theorem successPart_append_blockedTail :
    ∀ s : List IoResult, successPart s ++ blockedTail s = s
  | [] => rfl
  | r :: rest => by
    cases hr : isSuccess r with
    | true => simp [successPart, blockedTail, hr, successPart_append_blockedTail rest]
    | false => simp [successPart, blockedTail, hr]

theorem successPart_length_le : ∀ s : List IoResult, (successPart s).length ≤ s.length
  | [] => Nat.le_refl 0
  | r :: rest => by
    cases hr : isSuccess r with
    | true => simpa [successPart, hr] using successPart_length_le rest
    | false => simp [successPart, hr]

theorem successPart_split :
    ∀ (k : Nat) (s : List IoResult), k ≤ (successPart s).length →
      successPart s = s.take k ++ successPart (s.drop k) ∧
        blockedTail s = blockedTail (s.drop k)
  | 0, s, _ => by simp
  | Nat.succ k, [], h => by simp [successPart] at h
  | Nat.succ k, r :: rest, h => by
    cases hr : isSuccess r with
    | false => simp [successPart, hr] at h
    | true =>
      have h' : k ≤ (successPart rest).length := by
        simp [successPart, hr] at h
        omega
      have ih := successPart_split k rest h'
      simp [successPart, blockedTail, hr, ih.1, ih.2]

theorem drainLoop_wf : ∀ q : List Nat, 0 ∉ q → drainLoop q = (q, [])
  | [], _ => rfl
  | e :: rest, hq => by
    have he : ¬ e = 0 := by
      intro h
      exact hq (by rw [h]; exact List.mem_cons_self 0 rest)
    have ih := drainLoop_wf rest (fun h => hq (List.mem_cons_of_mem e h))
    simp [drainLoop, he, ih]

theorem drainErrorQueue_spec (c : Conn) (hq : 0 ∉ c.engine.errors) :
    (drainErrorQueue c).engine.errors = [] ∧
      (drainErrorQueue c).drainLog = c.drainLog ++ c.engine.errors := by
  simp [drainErrorQueue, drainLoop_wf c.engine.errors hq]

theorem readRegions_all :
    ∀ (caps : List Nat) (s : List IoResult), caps.length ≤ (successPart s).length →
      readRegions caps s = ((s.take caps.length).map nBytes, s.drop caps.length, none)
  | [], s, _ => by simp [readRegions]
  | _ :: caps, [], h => by simp [successPart] at h
  | c :: caps, r :: rest, h => by
    cases r with
    | success n =>
      have h' : caps.length ≤ (successPart rest).length := by
        simp [successPart, isSuccess] at h
        omega
      simp [readRegions, readRegions_all caps rest h', nBytes]
    | wantRead => simp [successPart, isSuccess] at h
    | wantWrite => simp [successPart, isSuccess] at h
    | fatal => simp [successPart, isSuccess] at h

theorem readRegions_term :
    ∀ (caps : List Nat) (s : List IoResult), (successPart s).length < caps.length →
      readRegions caps s =
        ((successPart s).map nBytes, afterTerm s, some (rFatalTerm (termOutcome s)))
  | [], _, h => by simp at h
  | c :: caps, [], _ => by
    simp [readRegions, successPart, afterTerm, blockedTail, termOutcome, rFatalTerm]
  | c :: caps, IoResult.success n :: rest, h => by
    have h' : (successPart rest).length < caps.length := by
      simp [successPart, isSuccess] at h
      omega
    simp [readRegions, readRegions_term caps rest h', successPart, isSuccess, nBytes,
      afterTerm, blockedTail, termOutcome]
  | c :: caps, IoResult.wantRead :: rest, _ => by
    simp [readRegions, successPart, isSuccess, afterTerm, blockedTail, termOutcome, rFatalTerm]
  | c :: caps, IoResult.wantWrite :: rest, _ => by
    simp [readRegions, successPart, isSuccess, afterTerm, blockedTail, termOutcome, rFatalTerm]
  | c :: caps, IoResult.fatal :: rest, _ => by
    simp [readRegions, successPart, isSuccess, afterTerm, blockedTail, termOutcome, rFatalTerm]

theorem readOuter_spec (caps : List Nat) (hc : caps ≠ []) :
    ∀ (fuel : Nat) (s : List IoResult), s.length < fuel →
      readOuter caps fuel s =
        ((successPart s).map nBytes, afterTerm s, rFatalTerm (termOutcome s))
  | 0, _, h => by omega
  | Nat.succ fuel, s, hs => by
    by_cases hlen : (successPart s).length < caps.length
    · rw [readOuter, readRegions_term caps s hlen]
    · have hle : caps.length ≤ (successPart s).length := Nat.le_of_not_lt hlen
      have hk : 1 ≤ caps.length := List.length_pos.mpr hc
      have hsp := successPart_length_le s
      have hdrop : (s.drop caps.length).length < fuel := by
        rw [List.length_drop]
        omega
      have ih := readOuter_spec caps hc fuel (s.drop caps.length) hdrop
      have hsplit := successPart_split caps.length s hle
      rw [readOuter, readRegions_all caps s hle]
      simp only [ih, hsplit.1, List.map_append]
      simp [afterTerm, termOutcome, hsplit.2]

/-- Description of the `for` loop of doWriteToSocket: writing stops at the
slice-list end, the script end, or the first non-success outcome, so only
the first `slices.length` scripted outcomes matter; within them the loop
accumulates the bytes of the leading successes and classifies the
terminator. -/
theorem writeSlices_spec :
    ∀ (slices : List Nat) (s : List IoResult),
      (writeSlices slices s).1 = ((successPart (s.take slices.length)).map nBytes).sum ∧
        (writeSlices slices s).2.2 = wFatalTerm (termOutcome (s.take slices.length))
  | [], s => by simp [writeSlices, successPart, termOutcome, blockedTail, wFatalTerm]
  | _ :: slices, [] => by simp [writeSlices, successPart, termOutcome, blockedTail, wFatalTerm]
  | c :: slices, IoResult.success n :: rest => by
    have ih := writeSlices_spec slices rest
    simp [writeSlices, successPart, isSuccess, nBytes, termOutcome, blockedTail, ih.1, ih.2]
  | c :: slices, IoResult.wantWrite :: rest => by
    simp [writeSlices, successPart, isSuccess, termOutcome, blockedTail, wFatalTerm]
  | c :: slices, IoResult.wantRead :: rest => by
    simp [writeSlices, successPart, isSuccess, termOutcome, blockedTail, wFatalTerm]
  | c :: slices, IoResult.fatal :: rest => by
    simp [writeSlices, successPart, isSuccess, termOutcome, blockedTail, wFatalTerm]

theorem drainBuf_zero : ∀ b : List Nat, drainBuf b 0 = b
  | [] => rfl
  | s :: rest => by simp [drainBuf]

theorem drainBuf_sum : ∀ (b : List Nat) (n : Nat), n ≤ b.sum → (drainBuf b n).sum = b.sum - n
  | [], n, h => by
    simp at h
    simp [drainBuf, h]
  | s :: rest, n, h => by
    by_cases h0 : n = 0
    · simp [drainBuf, h0]
    · by_cases h1 : n < s
      · simp [drainBuf, h0, h1]
        omega
      · have h2 : n - s ≤ rest.sum := by
          simp [List.sum_cons] at h
          omega
        have ih := drainBuf_sum rest (n - s) h2
        simp [drainBuf, h0, h1, ih, List.sum_cons]
        omega

/-- Behavior of the post-handshake read loop on any connection whose
buffer reserves at least one region: the regions that received bytes —
exactly the leading `success` outcomes of the script, each shrunk to its
byte count — are committed (also on the fatal path), the loop consumes the
script through its first non-success outcome, the action is `Close`
exactly when that outcome is neither `WANT_READ` nor script exhaustion,
and the error queue is drained exactly on the fatal path. -/
theorem readLoop_spec (c : Conn) (hc : c.caps ≠ []) :
    (readLoop c).1.readCommitted =
        c.readCommitted ++ (successPart c.engine.readScript).map nBytes ∧
      (readLoop c).1.engine.readScript = afterTerm c.engine.readScript ∧
      (readLoop c).2 = (if rFatalTerm (termOutcome c.engine.readScript) = true
        then PostIoAction.Close else PostIoAction.KeepOpen) ∧
      (rFatalTerm (termOutcome c.engine.readScript) = false →
        (readLoop c).1.engine.errors = c.engine.errors ∧
          (readLoop c).1.drainLog = c.drainLog) ∧
      (rFatalTerm (termOutcome c.engine.readScript) = true → 0 ∉ c.engine.errors →
        (readLoop c).1.engine.errors = [] ∧
          (readLoop c).1.drainLog = c.drainLog ++ c.engine.errors) := by
  have ho := readOuter_spec c.caps hc (c.engine.readScript.length + 1) c.engine.readScript
    (by omega)
  cases hft : rFatalTerm (termOutcome c.engine.readScript) with
  | false => simp [readLoop, ho, hft]
  | true =>
    refine ⟨?_, ?_, ?_, ?_, ?_⟩
    · simp [readLoop, ho, hft, drainErrorQueue]
    · simp [readLoop, ho, hft, drainErrorQueue]
    · simp [readLoop, ho, hft]
    · intro h
      exact absurd h (by simp)
    · intro _ h0
      simp [readLoop, ho, hft, drainErrorQueue, drainLoop_wf c.engine.errors h0]

/-- The read loop never touches the handshake flag, the event log, the
transport state, the write buffer, the verification verdict, or the
handshake script. -/
theorem readLoop_frame (c : Conn) :
    (readLoop c).1.handshake_complete = c.handshake_complete ∧
      (readLoop c).1.events = c.events ∧
      (readLoop c).1.connState = c.connState ∧
      (readLoop c).1.writeBuf = c.writeBuf ∧
      (readLoop c).1.engine.verify = c.engine.verify ∧
      (readLoop c).1.engine.hsScript = c.engine.hsScript ∧
      (readLoop c).1.drainLog.length ≥ c.drainLog.length := by
  refine ⟨?_, ?_, ?_, ?_, ?_, ?_, ?_⟩ <;>
    (simp only [readLoop]; split <;> simp [drainErrorQueue])

/-- Behavior of the post-handshake write loop: an empty write buffer
returns `KeepOpen` with the connection untouched; a fatal classification
within the first `writeBuf.length` scripted outcomes drains the error
queue and returns `Close` leaving the write buffer untouched; otherwise
exactly the accumulated success bytes are drained from the buffer front
and `KeepOpen` is returned with the error queue untouched. -/
theorem writeLoop_spec (c : Conn) :
    (c.writeBuf.sum = 0 → writeLoop c = (c, PostIoAction.KeepOpen)) ∧
      (c.writeBuf.sum ≠ 0 →
        (wFatalTerm (termOutcome (c.engine.writeScript.take c.writeBuf.length)) = true →
          (writeLoop c).2 = PostIoAction.Close ∧
            (writeLoop c).1.writeBuf = c.writeBuf ∧
            (0 ∉ c.engine.errors → (writeLoop c).1.engine.errors = [] ∧
              (writeLoop c).1.drainLog = c.drainLog ++ c.engine.errors)) ∧
          (wFatalTerm (termOutcome (c.engine.writeScript.take c.writeBuf.length)) = false →
            (writeLoop c).2 = PostIoAction.KeepOpen ∧
              (writeLoop c).1.writeBuf = drainBuf c.writeBuf
                (((successPart (c.engine.writeScript.take c.writeBuf.length)).map nBytes).sum) ∧
              (writeLoop c).1.engine.errors = c.engine.errors ∧
              (writeLoop c).1.drainLog = c.drainLog)) := by
  have hw := writeSlices_spec c.writeBuf c.engine.writeScript
  constructor
  · intro h0
    simp [writeLoop, h0]
  · intro hne
    constructor
    · intro hft
      have h2 : (writeSlices c.writeBuf c.engine.writeScript).2.2 = true := by
        rw [hw.2, hft]
      refine ⟨?_, ?_, ?_⟩
      · simp [writeLoop, hne, h2]
      · simp [writeLoop, hne, h2, drainErrorQueue]
      · intro h0
        simp [writeLoop, hne, h2, drainErrorQueue, drainLoop_wf c.engine.errors h0]
    · intro hft
      have h2 : (writeSlices c.writeBuf c.engine.writeScript).2.2 = false := by
        rw [hw.2, hft]
      by_cases hb : 0 < (writeSlices c.writeBuf c.engine.writeScript).1
      · rw [hw.1] at hb
        refine ⟨?_, ?_, ?_, ?_⟩ <;> simp [writeLoop, hne, h2, hb, hw.1]
      · have hb0 : (writeSlices c.writeBuf c.engine.writeScript).1 = 0 := by omega
        have hbytes : ((successPart (c.engine.writeScript.take c.writeBuf.length)).map
            nBytes).sum = 0 := by rw [← hw.1, hb0]
        refine ⟨?_, ?_, ?_, ?_⟩ <;>
          simp [writeLoop, hne, h2, hb, hbytes, drainBuf_zero]

/-- The write loop never touches the handshake flag, the event log, the
transport state, the read buffer, the verification verdict, or the
handshake script. -/
theorem writeLoop_frame (c : Conn) :
    (writeLoop c).1.handshake_complete = c.handshake_complete ∧
      (writeLoop c).1.events = c.events ∧
      (writeLoop c).1.connState = c.connState ∧
      (writeLoop c).1.readCommitted = c.readCommitted ∧
      (writeLoop c).1.engine.verify = c.engine.verify ∧
      (writeLoop c).1.engine.hsScript = c.engine.hsScript := by
  refine ⟨?_, ?_, ?_, ?_, ?_, ?_⟩ <;>
    (simp only [writeLoop]
     split
     · simp
     · split
       · simp [drainErrorQueue]
       · split <;> simp)

theorem doReadFromSocket_complete (c : Conn) (h : c.handshake_complete = true) :
    doReadFromSocket c = readLoop c := by
  simp [doReadFromSocket, h]

theorem doWriteToSocket_complete (c : Conn) (h : c.handshake_complete = true) :
    doWriteToSocket c = writeLoop c := by
  simp [doWriteToSocket, h]

theorem doReadFromSocket_guard (c : Conn) (h : c.handshake_complete = false)
    (hflag : (doHandshake c).1.handshake_complete = false) :
    doReadFromSocket c = doHandshake c := by
  simp [doReadFromSocket, h, hflag]

theorem doWriteToSocket_guard (c : Conn) (h : c.handshake_complete = false)
    (hflag : (doHandshake c).1.handshake_complete = false) :
    doWriteToSocket c = doHandshake c := by
  simp [doWriteToSocket, h, hflag]

/-- doHandshake on a successful engine step with a passing peer
verification: the flag is set, `Connected` is raised with the flag already
true, the upstream callback may close the connection, and the returned
action is `KeepOpen` exactly when the connection is still open after the
callback ran.  The error queue and its log are untouched on this path. -/
theorem doHandshake_success (c : Conn) (rest : List HsResult)
    (hs : c.engine.hsScript = HsResult.success :: rest) (hv : c.engine.verify = true) :
    (doHandshake c).1.handshake_complete = true ∧
      (doHandshake c).1.events = c.events ++ [(ConnEvent.Connected, true)] ∧
      (doHandshake c).1.connState =
        (if c.closeOnConnected = true then ConnState.Closed else c.connState) ∧
      (doHandshake c).2 = (if (doHandshake c).1.connState = ConnState.Open
        then PostIoAction.KeepOpen else PostIoAction.Close) ∧
      (doHandshake c).1.engine.errors = c.engine.errors ∧
      (doHandshake c).1.drainLog = c.drainLog := by
  cases hcb : c.closeOnConnected with
  | true => simp [doHandshake, stepHandshakeEngine, hs, hv, raiseEvents, hcb]
  | false =>
    simp [doHandshake, stepHandshakeEngine, hs, hv, raiseEvents, hcb]

/-- doHandshake on a successful engine step with a failing peer
verification: return `Close` at once, raising no event, leaving the flag,
the transport state, and the error queue untouched (this path does not
drain the queue). -/
theorem doHandshake_verifyFail (c : Conn) (rest : List HsResult)
    (hs : c.engine.hsScript = HsResult.success :: rest) (hv : c.engine.verify = false) :
    doHandshake c =
      ({ c with engine := { c.engine with hsScript := rest } }, PostIoAction.Close) := by
  simp [doHandshake, stepHandshakeEngine, hs, hv]

/-- doHandshake on a fatal engine classification: drain the error queue
and return `Close`. -/
theorem doHandshake_fatal (c : Conn) (rest : List HsResult)
    (hs : c.engine.hsScript = HsResult.fatal :: rest) :
    doHandshake c =
      (drainErrorQueue { c with engine := { c.engine with hsScript := rest } },
        PostIoAction.Close) := by
  simp [doHandshake, stepHandshakeEngine, hs]

/-- Whatever the engine's verdict, a doHandshake call with peer
verification configured to fail never sets the flag, never raises an
event, and never moves the transport state. -/
theorem doHandshake_verify_false_facts (c : Conn) (hv : c.engine.verify = false) :
    (doHandshake c).1.handshake_complete = c.handshake_complete ∧
      (doHandshake c).1.events = c.events ∧
      (doHandshake c).1.engine.verify = false ∧
      (doHandshake c).1.connState = c.connState := by
  cases hh : c.engine.hsScript with
  | nil => simp [doHandshake, stepHandshakeEngine, hh, hv]
  | cons r rest =>
    cases r <;> simp [doHandshake, stepHandshakeEngine, hh, hv, drainErrorQueue]

/-- A doHandshake call whose scripted outcome is blocking (`WANT_READ` or
`WANT_WRITE`), or whose script is exhausted, returns `KeepOpen` and leaves
every observable field except the script untouched, and the remaining
script is still all-blocking. -/
theorem doHandshake_blocking (c : Conn)
    (hall : ∀ r ∈ c.engine.hsScript, r = HsResult.wantRead ∨ r = HsResult.wantWrite) :
    (doHandshake c).2 = PostIoAction.KeepOpen ∧
      (doHandshake c).1.handshake_complete = c.handshake_complete ∧
      (doHandshake c).1.events = c.events ∧
      (doHandshake c).1.drainLog = c.drainLog ∧
      (doHandshake c).1.connState = c.connState ∧
      (∀ r ∈ (doHandshake c).1.engine.hsScript,
        r = HsResult.wantRead ∨ r = HsResult.wantWrite) := by
  cases hh : c.engine.hsScript with
  | nil =>
    refine ⟨?_, ?_, ?_, ?_, ?_, ?_⟩ <;> simp [doHandshake, stepHandshakeEngine, hh]
  | cons r rest =>
    have hr := hall r (by rw [hh]; exact List.mem_cons_self r rest)
    have hrest : ∀ x ∈ rest, x = HsResult.wantRead ∨ x = HsResult.wantWrite := by
      intro x hx
      exact hall x (by rw [hh]; exact List.mem_cons_of_mem r hx)
    cases hr with
    | inl h1 =>
      subst h1
      refine ⟨?_, ?_, ?_, ?_, ?_, ?_⟩ <;> simp [doHandshake, stepHandshakeEngine, hh]
      exact hrest
    | inr h1 =>
      subst h1
      refine ⟨?_, ?_, ?_, ?_, ?_, ?_⟩ <;> simp [doHandshake, stepHandshakeEngine, hh]
      exact hrest

/-- After the handshake completed, a step never touches the flag or the
event log (the handshake path is skipped and the loops only move buffer
bytes). -/
theorem step_complete_frame (c : Conn) (e : IoEvent) (h : c.handshake_complete = true) :
    (step c e).1.handshake_complete = true ∧ (step c e).1.events = c.events := by
  cases e with
  | readReady =>
    have hf := readLoop_frame c
    rw [step, doReadFromSocket_complete c h]
    exact ⟨hf.1.trans h, hf.2.1⟩
  | writeReady =>
    have hf := writeLoop_frame c
    rw [step, doWriteToSocket_complete c h]
    exact ⟨hf.1.trans h, hf.2.1⟩

/-- Once the handshake completed, the flag stays true and the event log
never grows over any remaining sequence of readiness events. -/
theorem run_complete_frame (evs : List IoEvent) :
    ∀ c : Conn, c.handshake_complete = true →
      (run c evs).1.handshake_complete = true ∧ (run c evs).1.events = c.events := by
  induction evs with
  | nil => exact fun c h => ⟨h, rfl⟩
  | cons e evs ih =>
    intro c h
    have hs := step_complete_frame c e h
    have hr := ih (step c e).1 hs.1
    exact ⟨hr.1, hr.2.trans hs.2⟩

/-- With peer verification configured to fail, a step never sets the flag
and never raises an event. -/
theorem step_verifyFail (c : Conn) (e : IoEvent) (hv : c.engine.verify = false)
    (h : c.handshake_complete = false) :
    (step c e).1.handshake_complete = false ∧ (step c e).1.events = c.events ∧
      (step c e).1.engine.verify = false := by
  have hd := doHandshake_verify_false_facts c hv
  have hflag : (doHandshake c).1.handshake_complete = false := by rw [hd.1, h]
  cases e with
  | readReady =>
    rw [step, doReadFromSocket_guard c h hflag]
    exact ⟨hflag, hd.2.1, hd.2.2.1⟩
  | writeReady =>
    rw [step, doWriteToSocket_guard c h hflag]
    exact ⟨hflag, hd.2.1, hd.2.2.1⟩

/-- With peer verification configured to fail, no run of readiness events
ever sets the flag or raises an event: the connection never reaches the
`Open` state of the spec's state machine and zero `Connected` events are
raised, whatever the engine script. -/
theorem run_verifyFail (evs : List IoEvent) :
    ∀ c : Conn, c.engine.verify = false → c.handshake_complete = false →
      (run c evs).1.handshake_complete = false ∧ (run c evs).1.events = c.events := by
  induction evs with
  | nil => exact fun c _ h => ⟨h, rfl⟩
  | cons e evs ih =>
    intro c hv h
    have hs := step_verifyFail c e hv h
    have hr := ih (step c e).1 hs.2.2 hs.1
    exact ⟨hr.1, hr.2.trans hs.2.1⟩

/-- With an all-blocking handshake script, a step returns `KeepOpen` and
changes nothing observable except consuming the script head. -/
theorem step_blocking (c : Conn) (e : IoEvent)
    (hall : ∀ r ∈ c.engine.hsScript, r = HsResult.wantRead ∨ r = HsResult.wantWrite)
    (h : c.handshake_complete = false) :
    (step c e).2 = PostIoAction.KeepOpen ∧
      (step c e).1.handshake_complete = false ∧
      (step c e).1.events = c.events ∧
      (step c e).1.drainLog = c.drainLog ∧
      (step c e).1.connState = c.connState ∧
      (∀ r ∈ (step c e).1.engine.hsScript,
        r = HsResult.wantRead ∨ r = HsResult.wantWrite) := by
  have hd := doHandshake_blocking c hall
  have hflag : (doHandshake c).1.handshake_complete = false := by rw [hd.2.1, h]
  cases e with
  | readReady =>
    rw [step, doReadFromSocket_guard c h hflag]
    exact ⟨hd.1, hflag, hd.2.2.1, hd.2.2.2.1, hd.2.2.2.2.1, hd.2.2.2.2.2⟩
  | writeReady =>
    rw [step, doWriteToSocket_guard c h hflag]
    exact ⟨hd.1, hflag, hd.2.2.1, hd.2.2.2.1, hd.2.2.2.2.1, hd.2.2.2.2.2⟩

/-- With an all-blocking handshake script, every action over any run is
`KeepOpen`, the flag stays false, no event is raised, nothing is drained,
and the transport state never moves: the connection stays in
`Handshaking` indefinitely. -/
theorem run_blocking (evs : List IoEvent) :
    ∀ c : Conn,
      (∀ r ∈ c.engine.hsScript, r = HsResult.wantRead ∨ r = HsResult.wantWrite) →
      c.handshake_complete = false →
      (∀ a ∈ (run c evs).2, a = PostIoAction.KeepOpen) ∧
        (run c evs).1.handshake_complete = false ∧
        (run c evs).1.events = c.events ∧
        (run c evs).1.drainLog = c.drainLog ∧
        (run c evs).1.connState = c.connState := by
  induction evs with
  | nil =>
    intro c _ h
    exact ⟨by intro a ha; simp [run] at ha, h, rfl, rfl, rfl⟩
  | cons e evs ih =>
    intro c hall h
    have hs := step_blocking c e hall h
    have hr := ih (step c e).1 hs.2.2.2.2.2 hs.2.1
    refine ⟨?_, hr.2.1, hr.2.2.1.trans hs.2.2.1, hr.2.2.2.1.trans hs.2.2.2.1,
      hr.2.2.2.2.trans hs.2.2.2.2.1⟩
    intro a ha
    simp only [run] at ha
    rcases List.mem_cons.mp ha with h1 | h2
    · rw [h1, hs.1]
    · exact hr.1 a h2

theorem successPart_mem :
    ∀ {s : List IoResult} {r : IoResult}, r ∈ successPart s → r ∈ s ∧ isSuccess r = true := by
  intro s
  induction s with
  | nil => intro r h; simp [successPart] at h
  | cons x rest ih =>
    intro r h
    cases hx : isSuccess x with
    | false => simp [successPart, hx] at h
    | true =>
      simp only [successPart, hx, if_true, List.mem_cons] at h
      rcases h with h | h
      · subst h
        exact ⟨List.mem_cons_self r rest, hx⟩
      · have h2 := ih h
        exact ⟨List.mem_cons_of_mem x h2.1, h2.2⟩

theorem termOutcome_ne_success :
    ∀ (s : List IoResult) (n : Nat), termOutcome s ≠ some (IoResult.success n)
  | [], n => by simp [termOutcome, blockedTail]
  | r :: rest, n => by
    cases hr : isSuccess r with
    | true => simpa [termOutcome, blockedTail, hr] using termOutcome_ne_success rest n
    | false =>
      intro he
      have hb : blockedTail (r :: rest) = r :: rest := by simp [blockedTail, hr]
      rw [termOutcome, hb] at he
      simp only [List.head?, Option.some.injEq] at he
      rw [he] at hr
      simp [isSuccess] at hr

theorem rFatalTerm_iff (s : List IoResult) :
    rFatalTerm (termOutcome s) = false ↔
      (termOutcome s = some IoResult.wantRead ∨ termOutcome s = none) := by
  cases hto : termOutcome s with
  | none => simp [rFatalTerm]
  | some r =>
    cases r with
    | success n => exact absurd hto (termOutcome_ne_success s n)
    | wantRead => simp [rFatalTerm]
    | wantWrite => simp [rFatalTerm]
    | fatal => simp [rFatalTerm]

theorem head?_toList_append (l : List IoResult) : l.head?.toList ++ l.tail = l := by
  cases l <;> simp

theorem readLoop_close_drains (c : Conn) (hq : 0 ∉ c.engine.errors)
    (h : (readLoop c).2 = PostIoAction.Close) :
    (readLoop c).1.engine.errors = [] ∧
      (readLoop c).1.drainLog = c.drainLog ++ c.engine.errors := by
  cases hb : (readOuter c.caps (c.engine.readScript.length + 1) c.engine.readScript).2.2 with
  | false => simp [readLoop, hb] at h
  | true => simp [readLoop, hb, drainErrorQueue, drainLoop_wf c.engine.errors hq]

theorem writeLoop_close_drains (c : Conn) (hq : 0 ∉ c.engine.errors)
    (h : (writeLoop c).2 = PostIoAction.Close) :
    (writeLoop c).1.engine.errors = [] ∧
      (writeLoop c).1.drainLog = c.drainLog ++ c.engine.errors := by
  by_cases h0 : c.writeBuf.sum = 0
  · simp [writeLoop, h0] at h
  · cases hb : (writeSlices c.writeBuf c.engine.writeScript).2.2 with
    | false =>
      rw [writeLoop, if_neg h0] at h
      simp only [hb, Bool.false_eq_true, if_false] at h
      split at h <;> simp at h
    | true => simp [writeLoop, h0, hb, drainErrorQueue, drainLoop_wf c.engine.errors hq]

theorem hexChars_length (bs : List Nat) : (hexChars bs).length = 2 * bs.length := by
  induction bs with
  | nil => rfl
  | cons b rest ih =>
    simp only [hexChars, List.map_cons, List.flatten_cons, List.length_append] at ih ⊢
    simp only [List.length_cons, List.length_nil, List.length_map] at ih ⊢
    omega

theorem x509Sha256_length (der : List Nat) : (x509Sha256 der).length = 32 := by
  simp [x509Sha256]

/-- Claim C1: when the engine handshake step succeeds and peer
verification succeeds, doHandshake sets the handshake-complete flag before
raising the `Connected` event (the event is logged with the flag already
true), the function returns `KeepOpen` exactly when the connection is
still open after the upstream event callback ran (a synchronous close by
the callback yields `Close`), and over any continuation of the
connection's life the flag stays true and the `Connected` count stays at
exactly one. -/
theorem claim_C1 (c : Conn) (rest : List HsResult) (evs : List IoEvent)
    (_hflag : c.handshake_complete = false)
    (hs : c.engine.hsScript = HsResult.success :: rest)
    (hv : c.engine.verify = true)
    (hfresh : countConnected c = 0) :
    (doHandshake c).1.handshake_complete = true ∧
      (doHandshake c).1.events = c.events ++ [(ConnEvent.Connected, true)] ∧
      ((doHandshake c).2 = PostIoAction.KeepOpen ↔
        (doHandshake c).1.connState = ConnState.Open) ∧
      (run (doHandshake c).1 evs).1.handshake_complete = true ∧
      countConnected (run (doHandshake c).1 evs).1 = 1 := by
  have hd := doHandshake_success c rest hs hv
  have hrun := run_complete_frame evs (doHandshake c).1 hd.1
  refine ⟨hd.1, hd.2.1, ?_, hrun.1, ?_⟩
  · rw [hd.2.2.2.1]
    by_cases hP : (doHandshake c).1.connState = ConnState.Open
    · simp [hP]
    · simp [hP]
  · simp only [countConnected] at hfresh ⊢
    rw [hrun.2, hd.2.1, List.length_append, hfresh]
    rfl

/-- Claim C1 witness: a fresh open server connection whose engine script
succeeds at once with passing verification, continued by a read-ready and
a write-ready event. -/
theorem claim_C1_witness :
    (doHandshake cHsOk).1.handshake_complete = true ∧
      (doHandshake cHsOk).1.events = cHsOk.events ++ [(ConnEvent.Connected, true)] ∧
      ((doHandshake cHsOk).2 = PostIoAction.KeepOpen ↔
        (doHandshake cHsOk).1.connState = ConnState.Open) ∧
      (run (doHandshake cHsOk).1
        [IoEvent.readReady, IoEvent.writeReady]).1.handshake_complete = true ∧
      countConnected (run (doHandshake cHsOk).1
        [IoEvent.readReady, IoEvent.writeReady]).1 = 1 :=
  claim_C1 cHsOk [] [IoEvent.readReady, IoEvent.writeReady] rfl rfl rfl rfl

/-- Claim C2: when the engine handshake step succeeds but peer
verification fails, doHandshake returns a close action, raises no event,
and never sets the flag; moreover over any run of readiness events with
this failing verifier the flag stays false (the connection never reaches
`Open`) and zero `Connected` events are ever raised. -/
theorem claim_C2 (c : Conn) (rest : List HsResult) (evs : List IoEvent)
    (hflag : c.handshake_complete = false)
    (hv : c.engine.verify = false)
    (hs : c.engine.hsScript = HsResult.success :: rest) :
    (doHandshake c).2 = PostIoAction.Close ∧
      (doHandshake c).1.handshake_complete = false ∧
      (doHandshake c).1.events = c.events ∧
      (run c evs).1.handshake_complete = false ∧
      (run c evs).1.events = c.events := by
  have hd := doHandshake_verifyFail c rest hs hv
  have hr := run_verifyFail evs c hv hflag
  refine ⟨?_, ?_, ?_, hr.1, hr.2⟩
  · rw [hd]
  · rw [hd]
    exact hflag
  · rw [hd]

/-- Claim C2 witness: a fresh connection with a failing verifier whose
engine handshake step succeeds, continued by one read-ready event. -/
theorem claim_C2_witness :
    (doHandshake cHsVerifyFail).2 = PostIoAction.Close ∧
      (doHandshake cHsVerifyFail).1.handshake_complete = false ∧
      (doHandshake cHsVerifyFail).1.events = cHsVerifyFail.events ∧
      (run cHsVerifyFail [IoEvent.readReady]).1.handshake_complete = false ∧
      (run cHsVerifyFail [IoEvent.readReady]).1.events = cHsVerifyFail.events :=
  claim_C2 cHsVerifyFail [] [IoEvent.readReady] rfl rfl rfl

/-- Claim C3: for any sequence of engine handshake outcomes drawn only
from WantRead and WantWrite, every read-ready or write-ready step (each of
which delegates to doHandshake while the handshake is incomplete) returns
`KeepOpen`, the flag never becomes true, no `Connected` event is raised,
nothing is ever drained from the error queue (no fatal classification),
and the transport state never moves: the connection stays in
`Handshaking`. -/
theorem claim_C3 (c : Conn) (evs : List IoEvent)
    (hall : ∀ r ∈ c.engine.hsScript, r = HsResult.wantRead ∨ r = HsResult.wantWrite)
    (hflag : c.handshake_complete = false) :
    (∀ a ∈ (run c evs).2, a = PostIoAction.KeepOpen) ∧
      (run c evs).1.handshake_complete = false ∧
      (run c evs).1.events = c.events ∧
      (run c evs).1.drainLog = c.drainLog ∧
      (run c evs).1.connState = c.connState :=
  run_blocking evs c hall hflag

/-- Claim C3 witness: a blocking handshake script of three outcomes run
over four readiness events. -/
theorem claim_C3_witness :
    (∀ a ∈ (run cHsBlocking
        [IoEvent.readReady, IoEvent.writeReady, IoEvent.readReady, IoEvent.writeReady]).2,
      a = PostIoAction.KeepOpen) ∧
      (run cHsBlocking
        [IoEvent.readReady, IoEvent.writeReady, IoEvent.readReady,
          IoEvent.writeReady]).1.handshake_complete = false ∧
      (run cHsBlocking
        [IoEvent.readReady, IoEvent.writeReady, IoEvent.readReady,
          IoEvent.writeReady]).1.events = cHsBlocking.events ∧
      (run cHsBlocking
        [IoEvent.readReady, IoEvent.writeReady, IoEvent.readReady,
          IoEvent.writeReady]).1.drainLog = cHsBlocking.drainLog ∧
      (run cHsBlocking
        [IoEvent.readReady, IoEvent.writeReady, IoEvent.readReady,
          IoEvent.writeReady]).1.connState = cHsBlocking.connState :=
  claim_C3 cHsBlocking
    [IoEvent.readReady, IoEvent.writeReady, IoEvent.readReady, IoEvent.writeReady]
    (by decide) rfl

/-- Claim C4: after the handshake is complete, pumpRead commits exactly
the regions that received bytes from the engine — the leading `success`
outcomes of the read script, each region shrunk to its received byte
count, zero-byte regions never among them — and this commit happens also
when the loop ends fatally; the call returns `KeepOpen` exactly when the
loop ended with `WANT_READ` (or an exhausted script), any other
non-success outcome (including `WANT_WRITE`, the unsupported-renegotiation
signal) reporting `Close` with the error queue drained. -/
theorem claim_C4 (c : Conn)
    (hflag : c.handshake_complete = true)
    (hcaps : c.caps ≠ [])
    (hwf : ∀ r ∈ c.engine.readScript, ioWF r = true)
    (hq : 0 ∉ c.engine.errors) :
    (doReadFromSocket c).1.readCommitted =
        c.readCommitted ++ (successPart c.engine.readScript).map nBytes ∧
      (∀ n ∈ (successPart c.engine.readScript).map nBytes, 0 < n) ∧
      (doReadFromSocket c).2 =
        (if termOutcome c.engine.readScript = some IoResult.wantRead ∨
            termOutcome c.engine.readScript = none
          then PostIoAction.KeepOpen else PostIoAction.Close) ∧
      ((doReadFromSocket c).2 = PostIoAction.Close →
        (doReadFromSocket c).1.engine.errors = []) := by
  rw [doReadFromSocket_complete c hflag]
  have hr := readLoop_spec c hcaps
  refine ⟨hr.1, ?_, ?_, ?_⟩
  · intro n hn
    rcases List.mem_map.mp hn with ⟨r, hrmem, hrn⟩
    have hm := successPart_mem hrmem
    have hw := hwf r hm.1
    cases r with
    | success m =>
      simp only [ioWF, decide_eq_true_eq] at hw
      rw [← hrn]
      simpa [nBytes] using hw
    | wantRead => exact absurd hm.2 (by simp [isSuccess])
    | wantWrite => exact absurd hm.2 (by simp [isSuccess])
    | fatal => exact absurd hm.2 (by simp [isSuccess])
  · rw [hr.2.2.1]
    cases hb : rFatalTerm (termOutcome c.engine.readScript) with
    | false =>
      have hd := (rFatalTerm_iff c.engine.readScript).mp hb
      rw [if_pos hd]
      simp
    | true =>
      have hd : ¬(termOutcome c.engine.readScript = some IoResult.wantRead ∨
          termOutcome c.engine.readScript = none) := by
        intro hcontra
        have hfalse := (rFatalTerm_iff c.engine.readScript).mpr hcontra
        rw [hb] at hfalse
        exact absurd hfalse (by simp)
      rw [if_neg hd]
      simp
  · intro hclose
    cases hb : rFatalTerm (termOutcome c.engine.readScript) with
    | false =>
      rw [hr.2.2.1] at hclose
      simp [hb] at hclose
    | true => exact (hr.2.2.2.2 hb hq).1

/-- Claim C4 witness: engine read outcomes [5 bytes, Fatal] commit the 5
bytes and close with the queue drained; [5 bytes, WantRead] commit the 5
bytes and keep open. -/
theorem claim_C4_witness :
    (doReadFromSocket cRead5Fatal).1.readCommitted = [5] ∧
      (doReadFromSocket cRead5Fatal).2 = PostIoAction.Close ∧
      (doReadFromSocket cRead5Fatal).1.engine.errors = [] ∧
      (doReadFromSocket cRead5WantRead).1.readCommitted = [5] ∧
      (doReadFromSocket cRead5WantRead).2 = PostIoAction.KeepOpen := by
  have h1 := claim_C4 cRead5Fatal rfl (by decide) (by decide) (by decide)
  have h2 := claim_C4 cRead5WantRead rfl (by decide) (by decide) (by decide)
  have a1 : (doReadFromSocket cRead5Fatal).2 = PostIoAction.Close :=
    h1.2.2.1.trans (by decide)
  have a2 : (doReadFromSocket cRead5WantRead).2 = PostIoAction.KeepOpen :=
    h2.2.2.1.trans (by decide)
  exact ⟨h1.1.trans (by decide), a1, h1.2.2.2 a1, h2.1.trans (by decide), a2⟩

/-- Claim C5 is false as stated: with two reserved 100-byte regions and
engine outcomes [5 bytes, 7 bytes, WantRead], the first region was only
partially filled (5 of 100 bytes), yet the loop still read the next
region — 7 more bytes were committed and the whole script was consumed.
The source continues to the next region on any `rc > 0`, not only when
the region was filled to its capacity. -/
theorem claim_C5_cex :
    (doReadFromSocket cReadPartial).1.readCommitted = [5, 7] ∧
      (doReadFromSocket cReadPartial).1.engine.readScript = [] ∧
      cReadPartial.caps = [100, 100] ∧ (5 : Nat) < 100 := by decide

/-- Claim C5 amended: reading continues to the next reserved region
whenever the previous region received any positive number of bytes (even
fewer than its capacity), and the loop stops as soon as the engine
reports a blocking or fatal condition: the call consumes exactly the
leading successes plus the first non-success outcome — nothing beyond it —
and commits exactly the success byte counts. -/
theorem claim_C5_amended (c : Conn)
    (hflag : c.handshake_complete = true) (hcaps : c.caps ≠ []) :
    c.engine.readScript =
        successPart c.engine.readScript ++ (termOutcome c.engine.readScript).toList ++
          (doReadFromSocket c).1.engine.readScript ∧
      (doReadFromSocket c).1.readCommitted =
        c.readCommitted ++ (successPart c.engine.readScript).map nBytes := by
  rw [doReadFromSocket_complete c hflag]
  have hr := readLoop_spec c hcaps
  refine ⟨?_, hr.1⟩
  rw [hr.2.1]
  simp only [List.append_assoc, termOutcome, afterTerm, head?_toList_append]
  exact (successPart_append_blockedTail c.engine.readScript).symm

/-- Claim C5 amended witness: the partial-fill script decomposes into its
two successes, the WantRead terminator, and an empty remainder. -/
theorem claim_C5_amended_witness :
    cReadPartial.engine.readScript =
        successPart cReadPartial.engine.readScript ++
          (termOutcome cReadPartial.engine.readScript).toList ++
          (doReadFromSocket cReadPartial).1.engine.readScript ∧
      (doReadFromSocket cReadPartial).1.readCommitted =
        cReadPartial.readCommitted ++
          (successPart cReadPartial.engine.readScript).map nBytes :=
  claim_C5_amended cReadPartial rfl (by decide)

/-- Claim C6 is false as stated on the fatal path: with a 100-byte write
buffer (chain slices of 40 and 60) and engine outcomes [40 bytes, Fatal],
the engine successfully wrote 40 bytes, but the early `return` of the
fatal branch skips the buffer drain: the function reports `Close` with
all 100 bytes still in the buffer instead of draining the 40 written
bytes. -/
theorem claim_C6_cex :
    (doWriteToSocket cWriteFatal).2 = PostIoAction.Close ∧
      (doWriteToSocket cWriteFatal).1.writeBuf = [40, 60] ∧
      (writeSlices cWriteFatal.writeBuf cWriteFatal.engine.writeScript).1 = 40 ∧
      (40 : Nat) ≠ 0 := by decide

/-- Claim C6 amended: an empty write buffer returns `KeepOpen` at once
with no engine call; on a call whose slice loop ends without a fatal
classification (all slices written, script exhausted, or `WANT_WRITE`),
exactly the total bytes successfully written — the leading successes among
the first `writeBuf.length` scripted outcomes — are drained from the
buffer front and `KeepOpen` is returned; on a fatal classification
(including `WANT_READ`, the unsupported-renegotiation signal) the error
queue is drained and `Close` returned with nothing drained from the write
buffer.  Draining `n ≤ sum` bytes shortens the buffer by exactly `n`. -/
theorem claim_C6_amended (c : Conn) (hflag : c.handshake_complete = true)
    (hq : 0 ∉ c.engine.errors) :
    (c.writeBuf.sum = 0 → doWriteToSocket c = (c, PostIoAction.KeepOpen)) ∧
      (c.writeBuf.sum ≠ 0 →
        (wFatalTerm (termOutcome (c.engine.writeScript.take c.writeBuf.length)) = false →
          (doWriteToSocket c).2 = PostIoAction.KeepOpen ∧
            (doWriteToSocket c).1.writeBuf = drainBuf c.writeBuf
              (((successPart (c.engine.writeScript.take c.writeBuf.length)).map
                nBytes).sum) ∧
            (doWriteToSocket c).1.engine.errors = c.engine.errors) ∧
          (wFatalTerm (termOutcome (c.engine.writeScript.take c.writeBuf.length)) = true →
            (doWriteToSocket c).2 = PostIoAction.Close ∧
              (doWriteToSocket c).1.writeBuf = c.writeBuf ∧
              (doWriteToSocket c).1.engine.errors = [])) ∧
      (∀ n, n ≤ c.writeBuf.sum → (drainBuf c.writeBuf n).sum = c.writeBuf.sum - n) := by
  rw [doWriteToSocket_complete c hflag]
  have hw := writeLoop_spec c
  refine ⟨hw.1, ?_, fun n hn => drainBuf_sum c.writeBuf n hn⟩
  intro hne
  constructor
  · intro hft
    have h2 := (hw.2 hne).2 hft
    exact ⟨h2.1, h2.2.1, h2.2.2.1⟩
  · intro hft
    have h2 := (hw.2 hne).1 hft
    exact ⟨h2.1, h2.2.1, (h2.2.2 hq).1⟩

/-- Claim C6 amended witness: a 100-byte buffer with outcomes
[40 bytes, WantWrite] drains exactly 40 bytes and keeps open; the
follow-up 60-byte buffer with outcome [60 bytes] drains the rest; an
empty buffer is untouched.  All through the amended theorem. -/
theorem claim_C6_amended_witness :
    (doWriteToSocket cWrite40).2 = PostIoAction.KeepOpen ∧
      (doWriteToSocket cWrite40).1.writeBuf = [60] ∧
      (doWriteToSocket cWrite60).2 = PostIoAction.KeepOpen ∧
      (doWriteToSocket cWrite60).1.writeBuf = [] ∧
      doWriteToSocket cWriteEmpty = (cWriteEmpty, PostIoAction.KeepOpen) := by
  have h1 := claim_C6_amended cWrite40 rfl (by decide)
  have h2 := claim_C6_amended cWrite60 rfl (by decide)
  have h3 := claim_C6_amended cWriteEmpty rfl (by decide)
  have e1 := (h1.2.1 (by decide)).1 (by decide)
  have e2 := (h2.2.1 (by decide)).1 (by decide)
  exact ⟨e1.1, e1.2.1.trans (by decide), e2.1, e2.2.1.trans (by decide), h3.1 (by decide)⟩

/-- Claim C7: the peer-certificate digest is valid to call at any time;
it is empty before handshake completion (the engine presents no peer
certificate then) and when no peer certificate was presented; with a
certificate present it is the 64-character hex encoding of the fixed
32-byte digest of the certificate's DER encoding; and it is computed from
the engine's current state alone — never cached — so it is identical
across calls on the same session state. -/
theorem claim_C7 (c : Conn)
    (hpre : c.handshake_complete = false → c.engine.peerCert = none) :
    (c.handshake_complete = false → sha256PeerCertificateDigest c = "") ∧
      (c.engine.peerCert = none → sha256PeerCertificateDigest c = "") ∧
      (∀ der, c.engine.peerCert = some der →
        (sha256PeerCertificateDigest c).length = 64) ∧
      (∀ c' : Conn, c'.engine.peerCert = c.engine.peerCert →
        sha256PeerCertificateDigest c' = sha256PeerCertificateDigest c) := by
  refine ⟨?_, ?_, ?_, ?_⟩
  · intro h
    simp [sha256PeerCertificateDigest, hpre h]
  · intro h
    simp [sha256PeerCertificateDigest, h]
  · intro der h
    have hc : (hexChars (x509Sha256 der)).length = 64 := by
      rw [hexChars_length, x509Sha256_length]
    have hl : (String.mk (hexChars (x509Sha256 der))).length = 64 := hc
    simp only [sha256PeerCertificateDigest, h]
    exact hl
  · intro c2 h
    simp [sha256PeerCertificateDigest, h]

/-- Claim C7 witness: a fresh connection (no certificate) has the empty
digest; a completed session with a certificate has a stable 64-character
digest. -/
theorem claim_C7_witness :
    sha256PeerCertificateDigest baseConn = "" ∧
      (sha256PeerCertificateDigest cCert).length = 64 ∧
      sha256PeerCertificateDigest cCert = sha256PeerCertificateDigest cCert := by
  have h1 := claim_C7 baseConn (fun _ => rfl)
  have h2 := claim_C7 cCert (by intro h; exact absurd h (by decide))
  exact ⟨h1.1 rfl, h2.2.2.1 [1, 2, 3] rfl, h2.2.2.2 cCert rfl⟩

/-- Claim C8 is false as stated: the verification-failure path of
doHandshake reports close without draining the error queue.  With a
successful engine step, a failing verifier, and a pending error-queue
entry 42, the call returns `Close` yet the queue still holds 42 (and no
event was raised). -/
theorem claim_C8_cex :
    (doHandshake cVerifyFailErr).2 = PostIoAction.Close ∧
      (doHandshake cVerifyFailErr).1.engine.errors = [42] ∧
      (doHandshake cVerifyFailErr).1.events = [] := by decide

/-- Claim C8 amended: every close-reporting path that classifies an
engine error — the `default` switch branches of doHandshake,
doReadFromSocket, and doWriteToSocket — fully drains the error queue
(empty immediately afterward) before returning, logging each entry; the
verification-failure close (shown false by the counterexample) and the
post-`Connected` synchronous close return close without draining. -/
theorem claim_C8_amended (c : Conn) (rest : List HsResult) (hq : 0 ∉ c.engine.errors) :
    (c.engine.hsScript = HsResult.fatal :: rest →
      (doHandshake c).2 = PostIoAction.Close ∧
        (doHandshake c).1.engine.errors = [] ∧
        (doHandshake c).1.drainLog = c.drainLog ++ c.engine.errors) ∧
      (c.handshake_complete = true → (doReadFromSocket c).2 = PostIoAction.Close →
        (doReadFromSocket c).1.engine.errors = [] ∧
          (doReadFromSocket c).1.drainLog = c.drainLog ++ c.engine.errors) ∧
      (c.handshake_complete = true → (doWriteToSocket c).2 = PostIoAction.Close →
        (doWriteToSocket c).1.engine.errors = [] ∧
          (doWriteToSocket c).1.drainLog = c.drainLog ++ c.engine.errors) := by
  refine ⟨?_, ?_, ?_⟩
  · intro hs
    rw [doHandshake_fatal c rest hs]
    have hd := drainErrorQueue_spec { c with engine := { c.engine with hsScript := rest } } hq
    exact ⟨rfl, hd.1, hd.2⟩
  · intro hflag hclose
    rw [doReadFromSocket_complete c hflag] at hclose ⊢
    exact readLoop_close_drains c hq hclose
  · intro hflag hclose
    rw [doWriteToSocket_complete c hflag] at hclose ⊢
    exact writeLoop_close_drains c hq hclose

/-- Claim C8 amended witness: a fatal handshake classification with queue
[42] closes with the queue emptied and the entry logged; the fatal read
path of the [5 bytes, Fatal] script likewise leaves an empty queue. -/
theorem claim_C8_amended_witness :
    (doHandshake cFatalHs).2 = PostIoAction.Close ∧
      (doHandshake cFatalHs).1.engine.errors = [] ∧
      (doHandshake cFatalHs).1.drainLog = cFatalHs.drainLog ++ cFatalHs.engine.errors ∧
      (doReadFromSocket cRead5Fatal).1.engine.errors = [] := by
  have h1 := claim_C8_amended cFatalHs [] (by decide)
  have h2 := claim_C8_amended cRead5Fatal [] (by decide)
  have e1 := h1.1 rfl
  exact ⟨e1.1, e1.2.1, e1.2.2, (h2.2.1 rfl (by decide)).1⟩

/-- Claim C9: closeSocket attempts exactly one best-effort shutdown
notification if and only if the handshake had completed, always before
the transport close; the transport close is the final action and proceeds
unconditionally — whatever the shutdown return code, it is logged and
ignored, never escalated. -/
theorem claim_C9 (c : Conn) :
    (c.handshake_complete = true →
      (closeSocket c).2 = [CloseAction.shutdownNotify c.engine.shutdownRc,
        CloseAction.drainErrors, CloseAction.transportClose]) ∧
      (c.handshake_complete = false → (closeSocket c).2 = [CloseAction.transportClose]) ∧
      (closeSocket c).2.getLast? = some CloseAction.transportClose ∧
      ((∃ rc, CloseAction.shutdownNotify rc ∈ (closeSocket c).2) ↔
        c.handshake_complete = true) := by
  cases h : c.handshake_complete with
  | true =>
    refine ⟨fun _ => by simp [closeSocket, h], fun hf => by simp [h] at hf, ?_, ?_⟩
    · simp [closeSocket, h]
    · simp only [closeSocket, h, if_true]
      constructor
      · intro _
        trivial
      · intro _
        exact ⟨c.engine.shutdownRc, by simp⟩
  | false =>
    refine ⟨fun ht => by simp [h] at ht, fun _ => by simp [closeSocket, h], ?_, ?_⟩
    · simp [closeSocket, h]
    · simp only [closeSocket, h, Bool.false_eq_true, if_false]
      constructor
      · intro hex
        rcases hex with ⟨rc, hrc⟩
        simp at hrc
      · intro ht
        exact absurd ht (by simp)

/-- Claim C9 witness: with the handshake complete the action sequence is
shutdown, drain, transport close; without it, transport close alone. -/
theorem claim_C9_witness :
    (closeSocket cShut).2 = [CloseAction.shutdownNotify cShut.engine.shutdownRc,
        CloseAction.drainErrors, CloseAction.transportClose] ∧
      (closeSocket baseConn).2 = [CloseAction.transportClose] ∧
      (closeSocket cShut).2.getLast? = some CloseAction.transportClose ∧
      (closeSocket baseConn).2.getLast? = some CloseAction.transportClose :=
  ⟨(claim_C9 cShut).1 rfl, (claim_C9 baseConn).2.1 rfl, (claim_C9 cShut).2.2.1,
    (claim_C9 baseConn).2.2.1⟩

/-- Claim C10: when the handshake had completed, closeSocket drains the
engine's error queue after the best-effort shutdown notification and
before the transport close — the queue is empty once the close proceeds,
with every entry logged, so a failed or partial shutdown leaves no
residual error-queue entries. -/
theorem claim_C10 (c : Conn) (hflag : c.handshake_complete = true)
    (hq : 0 ∉ c.engine.errors) :
    (closeSocket c).2 = [CloseAction.shutdownNotify c.engine.shutdownRc,
        CloseAction.drainErrors, CloseAction.transportClose] ∧
      (closeSocket c).1.engine.errors = [] ∧
      (closeSocket c).1.drainLog = c.drainLog ++ c.engine.errors := by
  have hd := drainErrorQueue_spec c hq
  refine ⟨?_, ?_, ?_⟩ <;> simp [closeSocket, hflag, hd.1, hd.2]

/-- Claim C10 witness: a completed-handshake connection with pending
error-queue entries 3 and 4 closes with the queue emptied and both
entries logged between the shutdown notification and the transport
close. -/
theorem claim_C10_witness :
    (closeSocket cShut).2 = [CloseAction.shutdownNotify cShut.engine.shutdownRc,
        CloseAction.drainErrors, CloseAction.transportClose] ∧
      (closeSocket cShut).1.engine.errors = [] ∧
      (closeSocket cShut).1.drainLog = cShut.drainLog ++ cShut.engine.errors :=
  claim_C10 cShut rfl (by decide)

end Ssl
